import Mathlib

/-!
# Monogenic signal engine: formal model and verification

A shallow embedding of the monogenic-signal library exercised by
`example/python/monogenicImageTest.py`, together with a model of that
example harness, and proofs of the specified properties.

The engine itself (frequency grid builder, filter bank builder, transform
engine, monogenic processor) is modelled from the specification, since the
repository only ships the Python usage harness; the harness (`main`) is
modelled from its source.

Arrays of shape `rows × cols` are modelled as functions `ZMod rows → ZMod cols → ℝ`
(or `ℂ`); raw images carry their shape at runtime so that dimension errors
can be expressed. Real arithmetic is exact (floating point is idealized).
-/

open scoped ZMod

namespace Monogenic

/-- The three error kinds of the engine (spec §7). -/
inductive MgError where
  | configurationError
  | dimensionError
  | stateError
  deriving DecidableEq, Repr

/-- A real-valued raster carrying its shape at runtime.  Only the entries
`pixel i j` with `i < rows`, `j < cols` are meaningful. -/
structure RawImage where
  rows : ℕ
  cols : ℕ
  pixel : ℕ → ℕ → ℝ

/-- A complex-valued raster carrying its shape at runtime (frequency-domain data). -/
structure RawCImage where
  rows : ℕ
  cols : ℕ
  pixel : ℕ → ℕ → ℂ

/-- Modelled from the spec: the `ε` regularization constant of the feature
derivation (§4.4 step 6); a small positive constant with a documented default. -/
noncomputable def epsilonMg : ℝ := 1 / 1000

/-- Modelled from the spec: the bandwidth constant `sigma` of the log-Gaussian
band-pass filter (§4.2); a tunable with a documented default. -/
noncomputable def sigmaOnf : ℝ := 11 / 20

/-- Modelled from the spec: the Frequency Grid Builder's per-axis normalized
frequency coordinate (§4.1): index `j` of an `N`-point axis maps to `j/N` below
the Nyquist midpoint and to `(j-N)/N` above it, giving values in `[-1/2, 1/2)`. -/
noncomputable def freqCoord (N : ℕ) (j : ZMod N) : ℝ :=
  if 2 * j.val < N then (j.val : ℝ) / N else ((j.val : ℝ) - N) / N

/-- Modelled from the spec: the horizontal frequency coordinate `fx` (§3, §4.1). -/
noncomputable def fx (R C : ℕ) (_r : ZMod R) (c : ZMod C) : ℝ := freqCoord C c

/-- Modelled from the spec: the vertical frequency coordinate `fy` (§3, §4.1). -/
noncomputable def fy (R C : ℕ) (r : ZMod R) (_c : ZMod C) : ℝ := freqCoord R r

/-- Modelled from the spec: the radial frequency `radius = sqrt (fx² + fy²)` (§3). -/
noncomputable def radius (R C : ℕ) (r : ZMod R) (c : ZMod C) : ℝ :=
  Real.sqrt (fx R C r c ^ 2 + fy R C r c ^ 2)

/-- Modelled from the spec: the isotropic log-Gaussian band-pass filter (§4.2),
`exp (-(log (radius/f0))² / (2 (log sigma)²))` with `f0 = 1/wavelength`, and the
DC bin forced to `0` unconditionally. -/
noncomputable def evenFilter (R C : ℕ) (wavelength : ℝ) (r : ZMod R) (c : ZMod C) : ℝ :=
  if r = 0 ∧ c = 0 then 0
  else Real.exp (-(Real.log (radius R C r c * wavelength)) ^ 2 /
    (2 * Real.log sigmaOnf ^ 2))

/-- Modelled from the spec: the horizontal Riesz multiplier `i·fx/radius`, DC bin
forced to `0` (§4.2). -/
noncomputable def rieszX (R C : ℕ) (r : ZMod R) (c : ZMod C) : ℂ :=
  if r = 0 ∧ c = 0 then 0 else Complex.I * (fx R C r c : ℂ) / (radius R C r c : ℂ)

/-- Modelled from the spec: the vertical Riesz multiplier `i·fy/radius`, DC bin
forced to `0` (§4.2). -/
noncomputable def rieszY (R C : ℕ) (r : ZMod R) (c : ZMod C) : ℂ :=
  if r = 0 ∧ c = 0 then 0 else Complex.I * (fy R C r c : ℂ) / (radius R C r c : ℂ)

/-- The Filter Bank: even band-pass filter and the two Riesz multipliers (§3). -/
structure FilterBank (R C : ℕ) where
  evenF : ZMod R → ZMod C → ℝ
  rx : ZMod R → ZMod C → ℂ
  ry : ZMod R → ZMod C → ℂ

/-- Modelled from the spec: the Filter Bank Builder `buildFilters` (§4.2),
a pure function of `(rows, cols, wavelength)`. -/
noncomputable def buildFilters (R C : ℕ) (wavelength : ℝ) : FilterBank R C :=
  { evenF := evenFilter R C wavelength
    rx := rieszX R C
    ry := rieszY R C }

/-- Modelled from the spec: the Transform Engine's forward 2-D discrete Fourier
transform (§4.3), realized as the row-wise DFT composed with the column-wise DFT. -/
noncomputable def forward2 (R C : ℕ) [NeZero R] [NeZero C]
    (x : ZMod R → ZMod C → ℂ) : ZMod R → ZMod C → ℂ :=
  ZMod.dft (fun r => ZMod.dft (x r))

/-- Modelled from the spec: the Transform Engine's inverse 2-D discrete Fourier
transform (§4.3). -/
noncomputable def inverse2 (R C : ℕ) [NeZero R] [NeZero C]
    (y : ZMod R → ZMod C → ℂ) : ZMod R → ZMod C → ℂ :=
  fun r => ZMod.dft.symm ((ZMod.dft.symm y) r)

/-- Interpret a shape-matching raw image as a `ZMod`-indexed complex field. -/
noncomputable def toComplexField (R C : ℕ) (img : RawImage) :
    ZMod R → ZMod C → ℂ :=
  fun r c => ((img.pixel r.val c.val : ℝ) : ℂ)

/-- Modelled from the spec: the Transform Engine's `forward` operation on raw
arrays, failing with a dimension error on shape mismatch (§4.3). -/
noncomputable def engineForward (R C : ℕ) [NeZero R] [NeZero C]
    (img : RawImage) : Except MgError RawCImage :=
  if img.rows = R ∧ img.cols = C then
    .ok ⟨R, C, fun i j => forward2 R C (toComplexField R C img) (i : ZMod R) (j : ZMod C)⟩
  else .error .dimensionError

/-- Modelled from the spec: the Transform Engine's `inverse` operation on raw
arrays, failing with a dimension error on shape mismatch (§4.3). -/
noncomputable def engineInverse (R C : ℕ) [NeZero R] [NeZero C]
    (y : RawCImage) : Except MgError RawImage :=
  if y.rows = R ∧ y.cols = C then
    .ok ⟨R, C, fun i j =>
      (inverse2 R C (fun r c => y.pixel r.val c.val) (i : ZMod R) (j : ZMod C)).re⟩
  else .error .dimensionError

/-- Forward transform followed by the inverse transform (round trip, §4.3). -/
noncomputable def roundTrip (R C : ℕ) [NeZero R] [NeZero C]
    (img : RawImage) : Except MgError RawImage :=
  (engineForward R C img).bind (engineInverse R C)

/-- The Monogenic Signal Result: three signal arrays and two feature maps (§3). -/
structure MonoResult (R C : ℕ) where
  even : ZMod R → ZMod C → ℝ
  oddX : ZMod R → ZMod C → ℝ
  oddY : ZMod R → ZMod C → ℝ
  featureSymmetry : ZMod R → ZMod C → ℝ
  featureAsymmetry : ZMod R → ZMod C → ℝ

/-- Modelled from the spec: the algorithmic core of `findMonogenicSignal`
(§4.4 steps 2-6) as a pure function: filter in the frequency domain, invert,
and derive the two feature maps with `ε` regularization. -/
noncomputable def applySignal (R C : ℕ) [NeZero R] [NeZero C] (wavelength : ℝ)
    (x : ZMod R → ZMod C → ℂ) : MonoResult R C :=
  let fb := buildFilters R C wavelength
  let F := forward2 R C x
  let even : ZMod R → ZMod C → ℝ :=
    fun r c => (inverse2 R C (fun r c => F r c * (fb.evenF r c : ℂ)) r c).re
  let oddX : ZMod R → ZMod C → ℝ :=
    fun r c => (inverse2 R C (fun r c => F r c * (fb.evenF r c : ℂ) * fb.rx r c) r c).re
  let oddY : ZMod R → ZMod C → ℝ :=
    fun r c => (inverse2 R C (fun r c => F r c * (fb.evenF r c : ℂ) * fb.ry r c) r c).re
  let localEnergy : ZMod R → ZMod C → ℝ :=
    fun r c => Real.sqrt (even r c ^ 2 + oddX r c ^ 2 + oddY r c ^ 2)
  { even := even
    oddX := oddX
    oddY := oddY
    featureSymmetry := fun r c => even r c / (localEnergy r c + epsilonMg)
    featureAsymmetry := fun r c =>
      Real.sqrt (oddX r c ^ 2 + oddY r c ^ 2) / (localEnergy r c + epsilonMg) }

/-- Modelled from the spec: the Monogenic Processor (§3, §4.4). `result = none`
is the Uninitialized state, `result = some _` the Ready state. -/
structure Processor where
  rows : ℕ
  cols : ℕ
  wavelength : ℝ
  rows_pos : 0 < rows
  cols_pos : 0 < cols
  wavelength_pos : 0 < wavelength
  result : Option (MonoResult rows cols)

open scoped Classical in
/-- Modelled from the spec: the processor constructor (§6): positive integer
`rows`, `cols` and positive real `wavelength`, else a configuration error;
a fresh processor is Uninitialized. -/
noncomputable def mkMonogenicProcessor (rows cols : ℤ) (wavelength : ℝ) :
    Except MgError Processor :=
  if h : 0 < rows ∧ 0 < cols ∧ 0 < wavelength then
    .ok { rows := rows.toNat
          cols := cols.toNat
          wavelength := wavelength
          rows_pos := by omega
          cols_pos := by omega
          wavelength_pos := h.2.2
          result := none }
  else .error .configurationError

/-- Modelled from the spec: `findMonogenicSignal` (§4.4): validate the shape,
run the pipeline, store the result (transition to Ready); on mismatch fail
with a dimension error. -/
noncomputable def findMonogenicSignal (p : Processor) (img : RawImage) :
    Except MgError Processor :=
  letI : NeZero p.rows := ⟨p.rows_pos.ne'⟩
  letI : NeZero p.cols := ⟨p.cols_pos.ne'⟩
  if img.rows = p.rows ∧ img.cols = p.cols then
    .ok { p with
      result := some (applySignal p.rows p.cols p.wavelength
        (toComplexField p.rows p.cols img)) }
  else .error .dimensionError

/-- The processor state after a `findMonogenicSignal` call as seen by the
caller: on failure the exception propagates and the processor is unchanged. -/
noncomputable def stepProcessor (p : Processor) (img : RawImage) : Processor :=
  match findMonogenicSignal p img with
  | .ok p' => p'
  | .error _ => p

/-- Modelled from the spec: accessor for the even signal array (§4.4);
state error while Uninitialized. -/
def getEvenFilt (p : Processor) :
    Except MgError (ZMod p.rows → ZMod p.cols → ℝ) :=
  match p.result with
  | none => .error .stateError
  | some res => .ok res.even

/-- Modelled from the spec: accessor returning the `(oddY, oddX)` pair, axis
order fixed (§4.4); state error while Uninitialized. -/
def getOddFiltCartesian (p : Processor) :
    Except MgError ((ZMod p.rows → ZMod p.cols → ℝ) × (ZMod p.rows → ZMod p.cols → ℝ)) :=
  match p.result with
  | none => .error .stateError
  | some res => .ok (res.oddY, res.oddX)

/-- Modelled from the spec: accessor for the feature symmetry map (§4.4);
state error while Uninitialized. -/
def getFeatureSymmetry (p : Processor) :
    Except MgError (ZMod p.rows → ZMod p.cols → ℝ) :=
  match p.result with
  | none => .error .stateError
  | some res => .ok res.featureSymmetry

/-- Modelled from the spec: accessor for the feature asymmetry map (§4.4);
state error while Uninitialized. -/
def getFeatureAsymmetry (p : Processor) :
    Except MgError (ZMod p.rows → ZMod p.cols → ℝ) :=
  match p.result with
  | none => .error .stateError
  | some res => .ok res.featureAsymmetry

/-- Whether an `Except` computation succeeded. -/
def exceptIsOk {ε α : Type _} : Except ε α → Bool
  | .ok _ => true
  | .error _ => false

end Monogenic

namespace Harness

/-- Observable events of the example harness `main`
(`src/example/python/monogenicImageTest.py`), in program order. -/
inductive MainEvent where
  | printed (msg : String)
  | windowCreated (name : String)
  | constructedProcessor
  | exited (code : ℕ)
  deriving DecidableEq, Repr

/-- The environment `main` runs in: the command line (including the script
name) and the behavior of `cv2.imread` (`none` models a failed load). -/
structure HarnessWorld where
  argv : List String
  loadImage : String → Option Monogenic.RawImage

/-- The five display window names created by `main`. -/
def windowNames : List String :=
  ["Even", "Odd Y", "Odd X", "Feature Symmetry", "Feature Asymmetry"]

/-- The event trace of `main` up to the construction of the
`MonogenicProcessor`, modelled from `monogenicImageTest.py` lines 18-114:
wrong argument count prints a usage message and exits 1; a failed image load
prints an error and exits 1; otherwise a success message is printed, the five
windows are created, and the processor is constructed. -/
def mainTrace (w : HarnessWorld) : List MainEvent :=
  if w.argv.length ≠ 2 then
    [.printed "Usage: python <script> <imagefilename>", .exited 1]
  else
    match w.loadImage (w.argv.getD 1 "") with
    | none => [.printed "Error: Could not open or find the image", .exited 1]
    | some _ =>
        .printed "Image loaded successfully" ::
          (windowNames.map MainEvent.windowCreated ++ [.constructedProcessor])

/-- The error message printed on the two early-exit paths of `main`. -/
def earlyErrorMsg (w : HarnessWorld) : String :=
  if w.argv.length ≠ 2 then "Usage: python <script> <imagefilename>"
  else "Error: Could not open or find the image"

end Harness

namespace Monogenic

lemma epsilonMg_pos : 0 < epsilonMg := by norm_num [epsilonMg]

/-- The stored feature-symmetry formula, unfolded. -/
lemma applySignal_featureSymmetry (R C : ℕ) [NeZero R] [NeZero C] (w : ℝ)
    (x : ZMod R → ZMod C → ℂ) (r : ZMod R) (c : ZMod C) :
    (applySignal R C w x).featureSymmetry r c =
      (applySignal R C w x).even r c /
        (Real.sqrt ((applySignal R C w x).even r c ^ 2 +
          (applySignal R C w x).oddX r c ^ 2 +
          (applySignal R C w x).oddY r c ^ 2) + epsilonMg) := rfl

/-- The stored feature-asymmetry formula, unfolded. -/
lemma applySignal_featureAsymmetry (R C : ℕ) [NeZero R] [NeZero C] (w : ℝ)
    (x : ZMod R → ZMod C → ℂ) (r : ZMod R) (c : ZMod C) :
    (applySignal R C w x).featureAsymmetry r c =
      Real.sqrt ((applySignal R C w x).oddX r c ^ 2 +
          (applySignal R C w x).oddY r c ^ 2) /
        (Real.sqrt ((applySignal R C w x).even r c ^ 2 +
          (applySignal R C w x).oddX r c ^ 2 +
          (applySignal R C w x).oddY r c ^ 2) + epsilonMg) := rfl

lemma featureSym_bound (e ox oy ε : ℝ) (hε : 0 < ε) :
    -1 ≤ e / (Real.sqrt (e ^ 2 + ox ^ 2 + oy ^ 2) + ε) ∧
      e / (Real.sqrt (e ^ 2 + ox ^ 2 + oy ^ 2) + ε) ≤ 1 := by
  set S := Real.sqrt (e ^ 2 + ox ^ 2 + oy ^ 2) with hS
  have hS0 : 0 ≤ S := Real.sqrt_nonneg _
  have hpos : 0 < S + ε := by linarith
  have habs : |e| ≤ S := by
    rw [hS, ← Real.sqrt_sq_eq_abs]
    exact Real.sqrt_le_sqrt (by nlinarith [sq_nonneg ox, sq_nonneg oy])
  have : |e / (S + ε)| ≤ 1 := by
    rw [abs_div, abs_of_pos hpos, div_le_one hpos]
    linarith
  exact abs_le.mp this

lemma featureAsym_bound (e ox oy ε : ℝ) (hε : 0 < ε) :
    0 ≤ Real.sqrt (ox ^ 2 + oy ^ 2) / (Real.sqrt (e ^ 2 + ox ^ 2 + oy ^ 2) + ε) ∧
      Real.sqrt (ox ^ 2 + oy ^ 2) / (Real.sqrt (e ^ 2 + ox ^ 2 + oy ^ 2) + ε) ≤ 1 := by
  set S := Real.sqrt (e ^ 2 + ox ^ 2 + oy ^ 2) with hS
  have hS0 : 0 ≤ S := Real.sqrt_nonneg _
  have hpos : 0 < S + ε := by linarith
  refine ⟨div_nonneg (Real.sqrt_nonneg _) hpos.le, ?_⟩
  rw [div_le_one hpos]
  have : Real.sqrt (ox ^ 2 + oy ^ 2) ≤ S :=
    Real.sqrt_le_sqrt (by nlinarith [sq_nonneg e])
  linarith

lemma featureEnergy_close (e ox oy ε k : ℝ) (hε : 0 < ε) (hk : 0 < k)
    (hE : k * ε < Real.sqrt (e ^ 2 + ox ^ 2 + oy ^ 2)) :
    |(e / (Real.sqrt (e ^ 2 + ox ^ 2 + oy ^ 2) + ε)) ^ 2 +
        (Real.sqrt (ox ^ 2 + oy ^ 2) / (Real.sqrt (e ^ 2 + ox ^ 2 + oy ^ 2) + ε)) ^ 2 - 1| ≤
      2 / k := by
  set S := Real.sqrt (e ^ 2 + ox ^ 2 + oy ^ 2) with hS
  have hSpos : 0 < S := lt_of_le_of_lt (by positivity) hE
  have hpos : 0 < S + ε := by linarith
  have hS2 : S ^ 2 = e ^ 2 + ox ^ 2 + oy ^ 2 := by
    rw [hS]; exact Real.sq_sqrt (by positivity)
  have hxy : Real.sqrt (ox ^ 2 + oy ^ 2) ^ 2 = ox ^ 2 + oy ^ 2 :=
    Real.sq_sqrt (by positivity)
  have key : (e / (S + ε)) ^ 2 + (Real.sqrt (ox ^ 2 + oy ^ 2) / (S + ε)) ^ 2 =
      S ^ 2 / (S + ε) ^ 2 := by
    rw [div_pow, div_pow, hxy, div_add_div_same, hS2]
    ring
  rw [key]
  have hle1 : S ^ 2 / (S + ε) ^ 2 ≤ 1 := by
    rw [div_le_one (by positivity)]
    nlinarith
  rw [abs_of_nonpos (by linarith), neg_sub]
  rw [sub_div' _ _ _ (by positivity : ((S + ε) ^ 2 : ℝ) ≠ 0)]
  rw [div_le_div_iff₀ (by positivity) hk]
  nlinarith [mul_pos (sub_pos.mpr hE) hSpos, mul_pos (sub_pos.mpr hE) hε,
    mul_pos hSpos hε]

/-- On success, `findMonogenicSignal` stores exactly the `applySignal` result. -/
lemma findMonogenicSignal_ok {p : Processor} {img : RawImage} {p' : Processor}
    (h : findMonogenicSignal p img = .ok p') :
    p' = { p with
      result := some (@applySignal p.rows p.cols ⟨p.rows_pos.ne'⟩ ⟨p.cols_pos.ne'⟩
        p.wavelength (toComplexField p.rows p.cols img)) } := by
  unfold findMonogenicSignal at h
  split at h
  · exact (Except.ok.inj h).symm
  · cases h

/-- C1: after a successful `findMonogenicSignal` call, at every pixel the
stored `featureSymmetry` lies in `[-1, 1]` and the stored `featureAsymmetry`
lies in `[0, 1]`. -/
theorem claim_c1_feature_ranges (p : Processor) (img : RawImage) (p' : Processor)
    (h : findMonogenicSignal p img = .ok p')
    (res : MonoResult p'.rows p'.cols) (hres : p'.result = some res)
    (r : ZMod p'.rows) (c : ZMod p'.cols) :
    (-1 ≤ res.featureSymmetry r c ∧ res.featureSymmetry r c ≤ 1) ∧
      (0 ≤ res.featureAsymmetry r c ∧ res.featureAsymmetry r c ≤ 1) := by
  obtain rfl := findMonogenicSignal_ok h
  obtain rfl := Option.some.inj hres
  constructor
  · rw [applySignal_featureSymmetry]
    exact featureSym_bound _ _ _ _ epsilonMg_pos
  · rw [applySignal_featureAsymmetry]
    exact featureAsym_bound _ _ _ _ epsilonMg_pos

/-- C2: at every pixel where the local energy
`sqrt (even² + oddX² + oddY²)` exceeds `k·ε`, the stored features satisfy
`|featureSymmetry² + featureAsymmetry² - 1| ≤ 2/k`. -/
theorem claim_c2_energy_decomposition (p : Processor) (img : RawImage)
    (p' : Processor) (h : findMonogenicSignal p img = .ok p')
    (res : MonoResult p'.rows p'.cols) (hres : p'.result = some res)
    (k : ℝ) (r : ZMod p'.rows) (c : ZMod p'.cols) (hk : 0 < k)
    (hE : k * epsilonMg <
      Real.sqrt (res.even r c ^ 2 + res.oddX r c ^ 2 + res.oddY r c ^ 2)) :
    |res.featureSymmetry r c ^ 2 + res.featureAsymmetry r c ^ 2 - 1| ≤ 2 / k := by
  obtain rfl := findMonogenicSignal_ok h
  obtain rfl := Option.some.inj hres
  rw [applySignal_featureSymmetry, applySignal_featureAsymmetry]
  exact featureEnergy_close _ _ _ _ _ epsilonMg_pos hk hE

/-- C3: a shape mismatch makes `findMonogenicSignal` fail with a dimension
error, and the processor state seen by the caller is unchanged. -/
theorem claim_c3_dimension_mismatch (p : Processor) (img : RawImage)
    (h : img.rows ≠ p.rows ∨ img.cols ≠ p.cols) :
    findMonogenicSignal p img = .error .dimensionError ∧
      stepProcessor p img = p := by
  have hcond : ¬(img.rows = p.rows ∧ img.cols = p.cols) := by tauto
  have h1 : findMonogenicSignal p img = .error .dimensionError := by
    unfold findMonogenicSignal
    rw [if_neg hcond]
  exact ⟨h1, by rw [stepProcessor, h1]⟩

/-- C8: construction fails with a configuration error exactly when `rows`,
`cols` or `wavelength` is non-positive, and succeeds on positive inputs. -/
theorem claim_c8_construction_contract (rows cols : ℤ) (wavelength : ℝ) :
    (mkMonogenicProcessor rows cols wavelength = .error .configurationError ↔
      rows ≤ 0 ∨ cols ≤ 0 ∨ wavelength ≤ 0) ∧
    (0 < rows → 0 < cols → 0 < wavelength →
      exceptIsOk (mkMonogenicProcessor rows cols wavelength) = true) := by
  by_cases hc : 0 < rows ∧ 0 < cols ∧ 0 < wavelength
  · rw [mkMonogenicProcessor, dif_pos hc]
    refine ⟨⟨fun h => absurd h (by simp), fun h => ?_⟩, fun _ _ _ => rfl⟩
    rcases h with h | h | h
    · exact absurd hc.1 (not_lt.mpr h)
    · exact absurd hc.2.1 (not_lt.mpr h)
    · exact absurd hc.2.2 (not_lt.mpr h)
  · rw [mkMonogenicProcessor, dif_neg hc]
    push_neg at hc
    constructor
    · refine ⟨fun _ => ?_, fun _ => rfl⟩
      by_cases h1 : 0 < rows
      · by_cases h2 : 0 < cols
        · exact Or.inr (Or.inr (hc h1 h2))
        · exact Or.inr (Or.inl (not_lt.mp h2))
      · exact Or.inl (not_lt.mp h1)
    · intro h1 h2 h3
      exact absurd h3 (not_lt.mpr (hc h1 h2))

end Monogenic

namespace Harness

/-- C10: whenever the command line does not hold exactly one argument or the
image fails to load, `main` prints an error message and exits with status 1
before creating any window and before constructing any processor. -/
theorem claim_c10_early_exit (w : HarnessWorld)
    (h : w.argv.length ≠ 2 ∨ w.loadImage (w.argv.getD 1 "") = none) :
    mainTrace w = [.printed (earlyErrorMsg w), .exited 1] ∧
      (∀ e ∈ mainTrace w, (∀ n, e ≠ .windowCreated n) ∧ e ≠ .constructedProcessor) ∧
      (mainTrace w).getLast? = some (.exited 1) ∧
      (mainTrace w).head? = some (.printed (earlyErrorMsg w)) := by
  have htr : mainTrace w = [.printed (earlyErrorMsg w), .exited 1] := by
    by_cases h2 : w.argv.length ≠ 2
    · rw [mainTrace, if_pos h2, earlyErrorMsg, if_pos h2]
    · have hload : w.loadImage (w.argv.getD 1 "") = none := h.resolve_left (by tauto)
      rw [mainTrace, if_neg h2, hload, earlyErrorMsg, if_neg h2]
  refine ⟨htr, ?_, by rw [htr]; rfl, by rw [htr]; rfl⟩
  intro e he
  rw [htr] at he
  simp only [List.mem_cons, List.not_mem_nil, or_false] at he
  rcases he with rfl | rfl
  · exact ⟨fun n => by simp, by simp⟩
  · exact ⟨fun n => by simp, by simp⟩

end Harness

namespace Monogenic

/-- C4: each accessor fails with a state error exactly while Uninitialized;
a freshly constructed processor is Uninitialized; a successful
`findMonogenicSignal` leaves the Ready state; in the Ready state each accessor
returns the corresponding stored array, `getOddFiltCartesian` in the fixed
`(oddY, oddX)` order. -/
theorem claim_c4_accessor_contract :
    (∀ p : Processor,
      (getEvenFilt p = .error .stateError ↔ p.result = none) ∧
      (getOddFiltCartesian p = .error .stateError ↔ p.result = none) ∧
      (getFeatureSymmetry p = .error .stateError ↔ p.result = none) ∧
      (getFeatureAsymmetry p = .error .stateError ↔ p.result = none)) ∧
    (∀ (p : Processor) (res : MonoResult p.rows p.cols), p.result = some res →
      getEvenFilt p = .ok res.even ∧
      getOddFiltCartesian p = .ok (res.oddY, res.oddX) ∧
      getFeatureSymmetry p = .ok res.featureSymmetry ∧
      getFeatureAsymmetry p = .ok res.featureAsymmetry) ∧
    (∀ (r c : ℤ) (w : ℝ) (p0 : Processor),
      mkMonogenicProcessor r c w = .ok p0 → p0.result = none) ∧
    (∀ (p p' : Processor) (img : RawImage),
      findMonogenicSignal p img = .ok p' → p'.result ≠ none) := by
  refine ⟨fun p => ?_, fun p res hres => ?_, fun r c w p0 h0 => ?_, fun p p' img h => ?_⟩
  · cases hres : p.result with
    | none =>
        simp [getEvenFilt, getOddFiltCartesian, getFeatureSymmetry,
          getFeatureAsymmetry, hres]
    | some res =>
        simp [getEvenFilt, getOddFiltCartesian, getFeatureSymmetry,
          getFeatureAsymmetry, hres]
  · simp [getEvenFilt, getOddFiltCartesian, getFeatureSymmetry,
      getFeatureAsymmetry, hres]
  · unfold mkMonogenicProcessor at h0
    split at h0
    · obtain rfl := Except.ok.inj h0
      rfl
    · cases h0
  · obtain rfl := findMonogenicSignal_ok h
    simp

/-- C7: the computation is deterministic: equally configured processors build
pointwise identical filter banks, and two successful `findMonogenicSignal`
calls on equally configured processors with the same input image store
pointwise identical result arrays. -/
theorem claim_c7_determinism :
    (∀ p q : Processor, p.rows = q.rows → p.cols = q.cols →
      p.wavelength = q.wavelength → ∀ i j : ℕ,
      (buildFilters p.rows p.cols p.wavelength).evenF i j =
        (buildFilters q.rows q.cols q.wavelength).evenF i j ∧
      (buildFilters p.rows p.cols p.wavelength).rx i j =
        (buildFilters q.rows q.cols q.wavelength).rx i j ∧
      (buildFilters p.rows p.cols p.wavelength).ry i j =
        (buildFilters q.rows q.cols q.wavelength).ry i j) ∧
    (∀ (p q : Processor) (img : RawImage) (p' q' : Processor),
      p.rows = q.rows → p.cols = q.cols → p.wavelength = q.wavelength →
      findMonogenicSignal p img = .ok p' → findMonogenicSignal q img = .ok q' →
      ∀ (res1 : MonoResult p'.rows p'.cols) (res2 : MonoResult q'.rows q'.cols),
        p'.result = some res1 → q'.result = some res2 → ∀ i j : ℕ,
        res1.even i j = res2.even i j ∧
        res1.oddX i j = res2.oddX i j ∧
        res1.oddY i j = res2.oddY i j ∧
        res1.featureSymmetry i j = res2.featureSymmetry i j ∧
        res1.featureAsymmetry i j = res2.featureAsymmetry i j) := by
  constructor
  · rintro ⟨pr, pc, pw, hpr, hpc, hpw, pres⟩ ⟨qr, qc, qw, hqr, hqc, hqw, qres⟩ h1 h2 h3 i j
    simp only at h1 h2 h3
    subst h1; subst h2; subst h3
    exact ⟨rfl, rfl, rfl⟩
  · rintro ⟨pr, pc, pw, hpr, hpc, hpw, pres⟩ ⟨qr, qc, qw, hqr, hqc, hqw, qres⟩
      img p' q' h1 h2 h3 hp hq res1 res2 hres1 hres2 i j
    simp only at h1 h2 h3
    subst h1; subst h2; subst h3
    obtain rfl := findMonogenicSignal_ok hp
    obtain rfl := findMonogenicSignal_ok hq
    obtain rfl := Option.some.inj hres1
    obtain rfl := Option.some.inj hres2
    exact ⟨rfl, rfl, rfl, rfl, rfl⟩

lemma freqCoord_zero (N : ℕ) (hN : 0 < N) : freqCoord N 0 = 0 := by
  haveI : NeZero N := ⟨hN.ne'⟩
  rw [freqCoord, ZMod.val_zero, if_pos (by omega)]
  simp

lemma freqCoord_eq_zero_iff (N : ℕ) (hN : 0 < N) (j : ZMod N) :
    freqCoord N j = 0 ↔ j = 0 := by
  haveI : NeZero N := ⟨hN.ne'⟩
  constructor
  · intro h
    rw [freqCoord] at h
    split_ifs at h with hb
    · rw [div_eq_zero_iff] at h
      rcases h with h | h
      · exact (ZMod.val_eq_zero j).mp (Nat.cast_eq_zero.mp h)
      · exact absurd (Nat.cast_eq_zero.mp h) hN.ne'
    · exfalso
      rw [div_eq_zero_iff, sub_eq_zero] at h
      rcases h with h | h
      · exact absurd (Nat.cast_injective h) (ZMod.val_lt j).ne
      · exact absurd (Nat.cast_eq_zero.mp h) hN.ne'
  · rintro rfl
    exact freqCoord_zero N hN

lemma radius_eq_zero_iff (R C : ℕ) (hR : 0 < R) (hC : 0 < C)
    (r : ZMod R) (c : ZMod C) :
    radius R C r c = 0 ↔ r = 0 ∧ c = 0 := by
  rw [radius, Real.sqrt_eq_zero (by positivity)]
  constructor
  · intro h
    have h1 : fx R C r c = 0 := by nlinarith [sq_nonneg (fx R C r c), sq_nonneg (fy R C r c)]
    have h2 : fy R C r c = 0 := by nlinarith [sq_nonneg (fx R C r c), sq_nonneg (fy R C r c)]
    exact ⟨(freqCoord_eq_zero_iff R hR r).mp h2, (freqCoord_eq_zero_iff C hC c).mp h1⟩
  · rintro ⟨rfl, rfl⟩
    rw [fx, fy, freqCoord_zero R hR, freqCoord_zero C hC]
    ring

/-- C9: the DC bin is the unique bin with `radius = 0`, and there the filter
bank builder forces `evenFilter`, `rieszX` and `rieszY` to exactly `0` instead
of dividing by `radius`. -/
theorem claim_c9_dc_forced_zero (R C : ℕ) (hR : 0 < R) (hC : 0 < C)
    (w : ℝ) (_hw : 0 < w) :
    radius R C 0 0 = 0 ∧
    (∀ (r : ZMod R) (c : ZMod C), radius R C r c = 0 ↔ r = 0 ∧ c = 0) ∧
    (buildFilters R C w).evenF 0 0 = 0 ∧
    (buildFilters R C w).rx 0 0 = 0 ∧
    (buildFilters R C w).ry 0 0 = 0 := by
  refine ⟨(radius_eq_zero_iff R C hR hC 0 0).mpr ⟨rfl, rfl⟩,
    radius_eq_zero_iff R C hR hC, ?_, ?_, ?_⟩
  · rw [buildFilters]
    exact if_pos ⟨rfl, rfl⟩
  · rw [buildFilters]
    exact if_pos ⟨rfl, rfl⟩
  · rw [buildFilters]
    exact if_pos ⟨rfl, rfl⟩

end Monogenic

namespace Monogenic

/-- Discrete 2-D Fourier inversion: the inverse transform undoes the forward
transform exactly. -/
lemma inverse2_forward2 (R C : ℕ) [NeZero R] [NeZero C]
    (x : ZMod R → ZMod C → ℂ) : inverse2 R C (forward2 R C x) = x := by
  funext r
  rw [inverse2, forward2, LinearEquiv.symm_apply_apply, LinearEquiv.symm_apply_apply]

/-- C6: for a shape-matching real input the transform engine's round trip
returns the input exactly (floating point idealized as real arithmetic), and
both `forward` and `inverse` fail with a dimension error on any
shape-mismatched array. -/
theorem claim_c6_transform_roundtrip (R C : ℕ) [NeZero R] [NeZero C]
    (x : RawImage) (z : RawCImage) :
    (x.rows = R → x.cols = C → ∀ y : RawImage, roundTrip R C x = .ok y →
      y.rows = x.rows ∧ y.cols = x.cols ∧
      ∀ i j : ℕ, i < R → j < C → y.pixel i j = x.pixel i j) ∧
    (x.rows = R → x.cols = C → exceptIsOk (roundTrip R C x) = true) ∧
    (¬(x.rows = R ∧ x.cols = C) → engineForward R C x = .error .dimensionError) ∧
    (¬(z.rows = R ∧ z.cols = C) → engineInverse R C z = .error .dimensionError) := by
  have hstep : x.rows = R → x.cols = C →
      roundTrip R C x = .ok ⟨R, C, fun i j =>
        (inverse2 R C (fun r c =>
          forward2 R C (toComplexField R C x) ((r.val : ℕ) : ZMod R) ((c.val : ℕ) : ZMod C))
          (i : ZMod R) (j : ZMod C)).re⟩ := by
    intro hr hc
    rw [roundTrip, engineForward, if_pos ⟨hr, hc⟩, Except.bind, engineInverse,
      if_pos ⟨rfl, rfl⟩]
  refine ⟨fun hr hc y hy => ?_, fun hr hc => ?_, fun hmis => ?_, fun hmis => ?_⟩
  · rw [hstep hr hc] at hy
    obtain rfl := (Except.ok.inj hy).symm
    refine ⟨hr.symm, hc.symm, fun i j hi hj => ?_⟩
    have hfun : (fun (r : ZMod R) (c : ZMod C) =>
        forward2 R C (toComplexField R C x) ((r.val : ℕ) : ZMod R) ((c.val : ℕ) : ZMod C)) =
        forward2 R C (toComplexField R C x) := by
      funext r c
      rw [ZMod.natCast_zmod_val, ZMod.natCast_zmod_val]
    show (inverse2 R C _ ((i : ZMod R)) ((j : ZMod C))).re = x.pixel i j
    rw [hfun, inverse2_forward2, toComplexField, ZMod.val_natCast_of_lt hi,
      ZMod.val_natCast_of_lt hj, Complex.ofReal_re]
  · rw [hstep hr hc]
    rfl
  · rw [engineForward, if_neg hmis]
  · rw [engineInverse, if_neg hmis]

/-- The full sum of a nontrivially shifted standard additive character
vanishes; at the trivial shift it is `N`. -/
lemma stdAddChar_sum (N : ℕ) [NeZero N] (k : ZMod N) :
    ∑ j : ZMod N, ZMod.stdAddChar (-(j * k)) = if k = 0 then (N : ℂ) else 0 := by
  have hshift : ∀ j : ZMod N, -(j * k) = -k * j := fun j => by ring
  split_ifs with h
  · subst h
    simp [AddChar.map_zero_eq_one, ZMod.card]
  · have h' : (-k : ZMod N) ≠ 0 := neg_ne_zero.mpr h
    have hz := AddChar.sum_eq_zero_of_ne_one (ZMod.isPrimitive_stdAddChar N h')
    calc ∑ j : ZMod N, ZMod.stdAddChar (-(j * k))
        = ∑ j : ZMod N, (AddChar.mulShift ZMod.stdAddChar (-k)) j := by
          refine Finset.sum_congr rfl fun j _ => ?_
          rw [AddChar.mulShift_apply, hshift j]
      _ = 0 := hz

/-- The forward 2-D DFT of a constant field is supported on the DC bin. -/
lemma forward2_const (R C : ℕ) [NeZero R] [NeZero C] (z : ℂ)
    (k : ZMod R) (l : ZMod C) :
    forward2 R C (fun _ _ => z) k l =
      (if k = 0 then (R : ℂ) else 0) * ((if l = 0 then (C : ℂ) else 0) * z) := by
  have hinner : (ZMod.dft (fun _ : ZMod C => z)) =
      fun l : ZMod C => (if l = 0 then (C : ℂ) else 0) * z := by
    funext l
    rw [ZMod.dft_apply]
    simp only [smul_eq_mul]
    rw [← Finset.sum_mul, stdAddChar_sum]
  rw [forward2]
  simp only [hinner]
  rw [show (ZMod.dft (fun _ : ZMod R => fun l : ZMod C =>
      (if l = 0 then (C : ℂ) else 0) * z)) k l =
      ∑ j : ZMod R, ZMod.stdAddChar (-(j * k)) *
        ((if l = 0 then (C : ℂ) else 0) * z) from by
    rw [ZMod.dft_apply, Finset.sum_apply]
    simp [smul_eq_mul]]
  rw [← Finset.sum_mul, stdAddChar_sum]

/-- The inverse 2-D DFT of the zero field is zero. -/
lemma inverse2_zero (R C : ℕ) [NeZero R] [NeZero C] :
    inverse2 R C (fun _ _ => (0 : ℂ)) = fun _ _ => 0 := by
  have h0 : (fun (_ : ZMod R) (_ : ZMod C) => (0 : ℂ)) =
      (0 : ZMod R → ZMod C → ℂ) := rfl
  funext r c
  rw [inverse2, h0, map_zero]
  simp

/-- The even signal component, unfolded to its frequency-domain definition. -/
lemma applySignal_even (R C : ℕ) [NeZero R] [NeZero C] (w : ℝ)
    (x : ZMod R → ZMod C → ℂ) (r : ZMod R) (c : ZMod C) :
    (applySignal R C w x).even r c =
      (inverse2 R C (fun k l => forward2 R C x k l *
        ((buildFilters R C w).evenF k l : ℂ)) r c).re := rfl

/-- The horizontal odd signal component, unfolded. -/
lemma applySignal_oddX (R C : ℕ) [NeZero R] [NeZero C] (w : ℝ)
    (x : ZMod R → ZMod C → ℂ) (r : ZMod R) (c : ZMod C) :
    (applySignal R C w x).oddX r c =
      (inverse2 R C (fun k l => forward2 R C x k l *
        ((buildFilters R C w).evenF k l : ℂ) * (buildFilters R C w).rx k l) r c).re := rfl

/-- The vertical odd signal component, unfolded. -/
lemma applySignal_oddY (R C : ℕ) [NeZero R] [NeZero C] (w : ℝ)
    (x : ZMod R → ZMod C → ℂ) (r : ZMod R) (c : ZMod C) :
    (applySignal R C w x).oddY r c =
      (inverse2 R C (fun k l => forward2 R C x k l *
        ((buildFilters R C w).evenF k l : ℂ) * (buildFilters R C w).ry k l) r c).re := rfl

/-- For a constant input field the three filtered signal components vanish
identically: the band-pass filter kills the DC bin and a constant input has no
other spectral content. -/
lemma applySignal_const (R C : ℕ) [NeZero R] [NeZero C] (w : ℝ) (z : ℂ)
    (r : ZMod R) (c : ZMod C) :
    (applySignal R C w (fun _ _ => z)).even r c = 0 ∧
    (applySignal R C w (fun _ _ => z)).oddX r c = 0 ∧
    (applySignal R C w (fun _ _ => z)).oddY r c = 0 := by
  have hfreq : ∀ g : ZMod R → ZMod C → ℂ, g 0 0 = 0 →
      ∀ (k : ZMod R) (l : ZMod C), forward2 R C (fun _ _ => z) k l * g k l = 0 := by
    intro g hg k l
    by_cases hdc : k = 0 ∧ l = 0
    · obtain ⟨rfl, rfl⟩ := hdc
      rw [hg, mul_zero]
    · rw [forward2_const]
      rcases not_and_or.mp hdc with h | h
      · rw [if_neg h, zero_mul, zero_mul]
      · rw [if_neg h, zero_mul, mul_zero, zero_mul]
  have hevenF : (((buildFilters R C w).evenF 0 0 : ℝ) : ℂ) = 0 := by
    simp [buildFilters, evenFilter]
  have hrx : (buildFilters R C w).rx 0 0 = 0 := by
    simp [buildFilters, rieszX]
  have hry : (buildFilters R C w).ry 0 0 = 0 := by
    simp [buildFilters, rieszY]
  refine ⟨?_, ?_, ?_⟩
  · rw [applySignal_even,
      show (fun (k : ZMod R) (l : ZMod C) => forward2 R C (fun _ _ => z) k l *
          ((buildFilters R C w).evenF k l : ℂ)) = fun _ _ => 0 from
        funext fun k => funext fun l =>
          hfreq (fun k l => ((buildFilters R C w).evenF k l : ℂ)) hevenF k l,
      inverse2_zero]
    simp
  · rw [applySignal_oddX,
      show (fun (k : ZMod R) (l : ZMod C) => forward2 R C (fun _ _ => z) k l *
          ((buildFilters R C w).evenF k l : ℂ) * (buildFilters R C w).rx k l) =
          fun _ _ => 0 from
        funext fun k => funext fun l => by
          rw [mul_assoc]
          exact hfreq (fun k l => ((buildFilters R C w).evenF k l : ℂ) *
            (buildFilters R C w).rx k l) (by simp only [hrx, mul_zero]) k l,
      inverse2_zero]
    simp
  · rw [applySignal_oddY,
      show (fun (k : ZMod R) (l : ZMod C) => forward2 R C (fun _ _ => z) k l *
          ((buildFilters R C w).evenF k l : ℂ) * (buildFilters R C w).ry k l) =
          fun _ _ => 0 from
        funext fun k => funext fun l => by
          rw [mul_assoc]
          exact hfreq (fun k l => ((buildFilters R C w).evenF k l : ℂ) *
            (buildFilters R C w).ry k l) (by simp only [hry, mul_zero]) k l,
      inverse2_zero]
    simp

/-- C5: after a successful `findMonogenicSignal` call on an image that is
constant on its configured domain, the stored `even`, `oddX` and `oddY`
arrays are exactly zero at every pixel (floating point idealized). -/
theorem claim_c5_dc_rejection (p : Processor) (img : RawImage) (v : ℝ)
    (hconst : ∀ i j : ℕ, i < p.rows → j < p.cols → img.pixel i j = v)
    (p' : Processor) (h : findMonogenicSignal p img = .ok p')
    (res : MonoResult p'.rows p'.cols) (hres : p'.result = some res)
    (r : ZMod p'.rows) (c : ZMod p'.cols) :
    res.even r c = 0 ∧ res.oddX r c = 0 ∧ res.oddY r c = 0 := by
  obtain rfl := findMonogenicSignal_ok h
  obtain rfl := Option.some.inj hres
  haveI : NeZero p.rows := ⟨p.rows_pos.ne'⟩
  haveI : NeZero p.cols := ⟨p.cols_pos.ne'⟩
  have hx : toComplexField p.rows p.cols img = fun _ _ => ((v : ℝ) : ℂ) := by
    funext a b
    rw [toComplexField, hconst a.val b.val (ZMod.val_lt a) (ZMod.val_lt b)]
  rw [hx]
  exact applySignal_const p.rows p.cols p.wavelength _ r c

end Monogenic

namespace Monogenic

/-- Pointwise formula for the forward 2-D DFT. -/
lemma forward2_apply (R C : ℕ) [NeZero R] [NeZero C]
    (x : ZMod R → ZMod C → ℂ) (k : ZMod R) (l : ZMod C) :
    forward2 R C x k l = ∑ r : ZMod R, ZMod.stdAddChar (-(r * k)) *
      ∑ c : ZMod C, ZMod.stdAddChar (-(c * l)) * x r c := by
  rw [forward2, ZMod.dft_apply, Finset.sum_apply]
  refine Finset.sum_congr rfl fun r _ => ?_
  rw [Pi.smul_apply, smul_eq_mul, ZMod.dft_apply]
  simp [smul_eq_mul]

/-- Pointwise formula for the inverse 2-D DFT. -/
lemma inverse2_apply (R C : ℕ) [NeZero R] [NeZero C]
    (y : ZMod R → ZMod C → ℂ) (r : ZMod R) (c : ZMod C) :
    inverse2 R C y r c = (C : ℂ)⁻¹ * ∑ l : ZMod C, ZMod.stdAddChar (l * c) *
      ((R : ℂ)⁻¹ * ∑ k : ZMod R, ZMod.stdAddChar (k * r) * y k l) := by
  rw [inverse2, ZMod.invDFT_apply, smul_eq_mul]
  congr 1
  refine Finset.sum_congr rfl fun l _ => ?_
  rw [smul_eq_mul]
  congr 1
  simp only [ZMod.invDFT_apply, Pi.smul_apply, Finset.sum_apply, smul_eq_mul]

lemma sum_zmod_one {M : Type _} [AddCommMonoid M] (f : ZMod 1 → M) :
    ∑ j : ZMod 1, f j = f 0 := by
  have h : (Finset.univ : Finset (ZMod 1)) = {0} := by decide
  rw [h, Finset.sum_singleton]

lemma sum_zmod_two {M : Type _} [AddCommMonoid M] (f : ZMod 2 → M) :
    ∑ j : ZMod 2, f j = f 0 + f 1 := by
  have h : (Finset.univ : Finset (ZMod 2)) = {0, 1} := by decide
  rw [h, Finset.sum_insert (by decide), Finset.sum_singleton]

/-- The nontrivial value of the standard character on `ZMod 2`. -/
lemma stdAddChar_two_one : ZMod.stdAddChar (1 : ZMod 2) = -1 := by
  have h := @ZMod.stdAddChar_coe 2 _ 1
  have harg : (2 * (Real.pi : ℂ) * Complex.I * ((1 : ℤ) : ℂ) / ((2 : ℕ) : ℂ)) =
      (Real.pi : ℂ) * Complex.I := by
    push_cast
    ring
  rw [show ((1 : ℤ) : ZMod 2) = 1 by push_cast; rfl] at h
  rw [h, harg, Complex.exp_pi_mul_I]

end Monogenic

namespace Monogenic

/-- A 1×1 test image with constant value 5. -/
noncomputable def imgA : RawImage := ⟨1, 1, fun _ _ => 5⟩

/-- A 1×1 processor with wavelength 2, freshly constructed. -/
noncomputable def procA : Processor := ⟨1, 1, 2, one_pos, one_pos, two_pos, none⟩

/-- The result stored after running the 1×1 processor on `imgA`. -/
noncomputable def resA : MonoResult 1 1 := applySignal 1 1 2 (toComplexField 1 1 imgA)

/-- The 1×1 processor after a successful `findMonogenicSignal` on `imgA`. -/
noncomputable def procA1 : Processor := { procA with result := some resA }

lemma find_procA : findMonogenicSignal procA imgA = .ok procA1 := rfl

/-- A 2×1 test image: pixel value equals the row index. -/
noncomputable def imgB : RawImage := ⟨2, 1, fun i _ => (i : ℝ)⟩

/-- A 2×1 processor with wavelength 2, freshly constructed. -/
noncomputable def procB : Processor := ⟨2, 1, 2, two_pos, one_pos, two_pos, none⟩

/-- The result stored after running the 2×1 processor on `imgB`. -/
noncomputable def resB : MonoResult 2 1 := applySignal 2 1 2 (toComplexField 2 1 imgB)

/-- The 2×1 processor after a successful `findMonogenicSignal` on `imgB`. -/
noncomputable def procB1 : Processor := { procB with result := some resB }

lemma find_procB : findMonogenicSignal procB imgB = .ok procB1 := rfl

/-- A 64×64 processor with wavelength 50 (the spec's example configuration). -/
noncomputable def procD : Processor :=
  ⟨64, 64, 50, by norm_num, by norm_num, by norm_num, none⟩

/-- A 32×32 all-zero image (shape mismatched against `procD`). -/
noncomputable def img32 : RawImage := ⟨32, 32, fun _ _ => 0⟩

/-- A 2×2 all-zero frequency-domain array (shape mismatched against a 1×1 engine). -/
noncomputable def zBad : RawCImage := ⟨2, 2, fun _ _ => 0⟩

lemma mk_procD : mkMonogenicProcessor 64 64 50 = .ok procD := by
  rw [mkMonogenicProcessor,
    dif_pos (show (0 : ℤ) < 64 ∧ (0 : ℤ) < 64 ∧ (0 : ℝ) < 50 from
      ⟨by norm_num, by norm_num, by norm_num⟩)]
  rfl

end Monogenic

namespace Monogenic

lemma re_eq_of_eq {z : ℂ} {a : ℝ} (h : z = (a : ℂ)) : z.re = a := by
  rw [h, Complex.ofReal_re]

lemma re_eq_zero_of_eq_mul_I {z : ℂ} {a : ℝ} (h : z = (a : ℂ) * Complex.I) :
    z.re = 0 := by
  rw [h]
  simp

lemma freq_B_10 : freqCoord 2 (1 : ZMod 2) = -(1 / 2) := by
  rw [freqCoord, show (1 : ZMod 2).val = 1 from rfl, if_neg (by norm_num)]
  norm_num

lemma radius_B_10 : radius 2 1 (1 : ZMod 2) (0 : ZMod 1) = 1 / 2 := by
  rw [radius, fx, fy, freqCoord_zero 1 one_pos, freq_B_10,
    show (0 : ℝ) ^ 2 + (-(1 / 2) : ℝ) ^ 2 = (1 / 2) ^ 2 by norm_num]
  exact Real.sqrt_sq (by norm_num)

lemma evenF_B_00 : (buildFilters 2 1 2).evenF 0 0 = 0 := by
  show evenFilter 2 1 2 0 0 = 0
  rw [evenFilter, if_pos ⟨rfl, rfl⟩]

lemma evenF_B_10 : (buildFilters 2 1 2).evenF 1 0 = 1 := by
  show evenFilter 2 1 2 1 0 = 1
  rw [evenFilter, if_neg (by decide), radius_B_10,
    show (1 / 2 : ℝ) * 2 = 1 by norm_num, Real.log_one]
  norm_num

lemma rx_B_10 : (buildFilters 2 1 2).rx 1 0 = 0 := by
  show rieszX 2 1 1 0 = 0
  rw [rieszX, if_neg (by decide), fx, freqCoord_zero 1 one_pos]
  simp

lemma ry_B_10 : (buildFilters 2 1 2).ry 1 0 = -Complex.I := by
  show rieszY 2 1 1 0 = -Complex.I
  rw [rieszY, if_neg (by decide), fy, freq_B_10, radius_B_10]
  push_cast
  field_simp

lemma imgB_field_00 : toComplexField 2 1 imgB 0 0 = 0 := by
  simp [toComplexField, imgB, ZMod.val_zero]

lemma imgB_field_10 : toComplexField 2 1 imgB 1 0 = 1 := by
  simp [toComplexField, imgB, show (1 : ZMod 2).val = 1 from rfl]

lemma F_B_00 : forward2 2 1 (toComplexField 2 1 imgB) 0 0 = 1 := by
  rw [forward2_apply, sum_zmod_two, sum_zmod_one, sum_zmod_one]
  rw [show (-((0 : ZMod 2) * 0)) = (0 : ZMod 2) from by decide,
    show (-((1 : ZMod 2) * 0)) = (0 : ZMod 2) from by decide,
    show (-((0 : ZMod 1) * 0)) = (0 : ZMod 1) from by decide,
    AddChar.map_zero_eq_one, imgB_field_00, imgB_field_10]
  norm_num

lemma F_B_10 : forward2 2 1 (toComplexField 2 1 imgB) 1 0 = -1 := by
  rw [forward2_apply, sum_zmod_two, sum_zmod_one, sum_zmod_one]
  rw [show (-((0 : ZMod 2) * 1)) = (0 : ZMod 2) from by decide,
    show (-((1 : ZMod 2) * 1)) = (1 : ZMod 2) from by decide,
    show (-((0 : ZMod 1) * 0)) = (0 : ZMod 1) from by decide,
    AddChar.map_zero_eq_one, stdAddChar_two_one, imgB_field_00, imgB_field_10]
  norm_num

lemma resB_even_00 : resB.even 0 0 = -(1 / 2) := by
  rw [resB, applySignal_even, inverse2_apply, sum_zmod_one, sum_zmod_two]
  simp only [show ((0 : ZMod 1) * 0) = (0 : ZMod 1) from by decide,
    show ((0 : ZMod 2) * 0) = (0 : ZMod 2) from by decide,
    show ((1 : ZMod 2) * 0) = (0 : ZMod 2) from by decide,
    AddChar.map_zero_eq_one, one_mul, F_B_00, F_B_10, evenF_B_00, evenF_B_10,
    Complex.ofReal_zero, Complex.ofReal_one, mul_zero, mul_one]
  apply re_eq_of_eq
  push_cast
  norm_num

lemma resB_oddX_00 : resB.oddX 0 0 = 0 := by
  rw [resB, applySignal_oddX, inverse2_apply, sum_zmod_one, sum_zmod_two]
  simp only [show ((0 : ZMod 1) * 0) = (0 : ZMod 1) from by decide,
    show ((0 : ZMod 2) * 0) = (0 : ZMod 2) from by decide,
    show ((1 : ZMod 2) * 0) = (0 : ZMod 2) from by decide,
    AddChar.map_zero_eq_one, one_mul, F_B_00, F_B_10, evenF_B_00, evenF_B_10,
    rx_B_10, Complex.ofReal_zero, Complex.ofReal_one, mul_zero, mul_one, zero_mul,
    add_zero, zero_add]
  apply re_eq_of_eq
  push_cast
  norm_num

lemma resB_oddY_00 : resB.oddY 0 0 = 0 := by
  rw [resB, applySignal_oddY, inverse2_apply, sum_zmod_one, sum_zmod_two]
  simp only [show ((0 : ZMod 1) * 0) = (0 : ZMod 1) from by decide,
    show ((0 : ZMod 2) * 0) = (0 : ZMod 2) from by decide,
    show ((1 : ZMod 2) * 0) = (0 : ZMod 2) from by decide,
    AddChar.map_zero_eq_one, one_mul, F_B_00, F_B_10, evenF_B_00, evenF_B_10,
    ry_B_10, Complex.ofReal_zero, Complex.ofReal_one, mul_zero, mul_one, zero_mul,
    add_zero, zero_add]
  exact @re_eq_zero_of_eq_mul_I _ (1 / 2) (by push_cast; ring)

end Monogenic

namespace Monogenic

lemma find_procA1 : findMonogenicSignal procA1 imgA = .ok procA1 := rfl

/-- Witness for C1 at the concrete 1×1 processor and image. -/
theorem claim_c1_witness :
    (-1 ≤ resA.featureSymmetry 0 0 ∧ resA.featureSymmetry 0 0 ≤ 1) ∧
      (0 ≤ resA.featureAsymmetry 0 0 ∧ resA.featureAsymmetry 0 0 ≤ 1) :=
  claim_c1_feature_ranges procA imgA procA1 find_procA resA rfl 0 0

/-- Witness for C2 at the concrete 2×1 processor and image, where the local
energy at pixel `(0,0)` is `1/2 > 100·ε`. -/
theorem claim_c2_witness :
    |resB.featureSymmetry 0 0 ^ 2 + resB.featureAsymmetry 0 0 ^ 2 - 1| ≤ 2 / 100 :=
  claim_c2_energy_decomposition procB imgB procB1 find_procB resB rfl 100 0 0
    (by norm_num)
    (by
      rw [resB_even_00, resB_oddX_00, resB_oddY_00,
        show (-(1 / 2) : ℝ) ^ 2 + (0 : ℝ) ^ 2 + (0 : ℝ) ^ 2 = (1 / 2) ^ 2 by norm_num,
        Real.sqrt_sq (by norm_num : (0 : ℝ) ≤ 1 / 2)]
      norm_num [epsilonMg])

/-- Witness for C3: a 32×32 image against a 64×64 processor. -/
theorem claim_c3_witness :
    findMonogenicSignal procD img32 = .error .dimensionError ∧
      stepProcessor procD img32 = procD :=
  claim_c3_dimension_mismatch procD img32 (Or.inl (by decide))

/-- Witness for C4 at concrete Uninitialized and Ready processors. -/
theorem claim_c4_witness :
    getEvenFilt procA = .error .stateError ∧
    getOddFiltCartesian procA1 = .ok (resA.oddY, resA.oddX) ∧
    getFeatureSymmetry procA1 = .ok resA.featureSymmetry ∧
    getFeatureAsymmetry procA1 = .ok resA.featureAsymmetry ∧
    getEvenFilt procA1 = .ok resA.even ∧
    procD.result = none ∧
    procA1.result ≠ none :=
  ⟨(claim_c4_accessor_contract.1 procA).1.mpr rfl,
   (claim_c4_accessor_contract.2.1 procA1 resA rfl).2.1,
   (claim_c4_accessor_contract.2.1 procA1 resA rfl).2.2.1,
   (claim_c4_accessor_contract.2.1 procA1 resA rfl).2.2.2,
   (claim_c4_accessor_contract.2.1 procA1 resA rfl).1,
   claim_c4_accessor_contract.2.2.1 64 64 50 procD mk_procD,
   claim_c4_accessor_contract.2.2.2 procA procA1 imgA find_procA⟩

/-- Witness for C5: the constant 1×1 image. -/
theorem claim_c5_witness :
    resA.even 0 0 = 0 ∧ resA.oddX 0 0 = 0 ∧ resA.oddY 0 0 = 0 :=
  claim_c5_dc_rejection procA imgA 5 (fun _ _ _ _ => rfl) procA1 find_procA
    resA rfl 0 0

/-- The round trip of the 1×1 engine on `imgA`, as a stored image. -/
noncomputable def yA : RawImage :=
  match roundTrip 1 1 imgA with
  | .ok y => y
  | .error _ => imgA

lemma roundTrip_imgA : roundTrip 1 1 imgA = .ok yA := rfl

/-- Witness for C6: round trip on a 1×1 image, plus concrete dimension
mismatches for both directions. -/
theorem claim_c6_witness :
    yA.pixel 0 0 = imgA.pixel 0 0 ∧
    exceptIsOk (roundTrip 1 1 imgA) = true ∧
    engineForward 1 1 img32 = .error .dimensionError ∧
    engineInverse 1 1 zBad = .error .dimensionError :=
  ⟨((claim_c6_transform_roundtrip 1 1 imgA zBad).1 rfl rfl yA roundTrip_imgA).2.2
      0 0 one_pos one_pos,
   (claim_c6_transform_roundtrip 1 1 imgA zBad).2.1 rfl rfl,
   (claim_c6_transform_roundtrip 1 1 img32 zBad).2.2.1 (by decide),
   (claim_c6_transform_roundtrip 1 1 imgA zBad).2.2.2 (by decide)⟩

/-- Witness for C7 on two equally configured 1×1 processor instances. -/
theorem claim_c7_witness :
    (buildFilters procA.rows procA.cols procA.wavelength).evenF
        ((0 : ℕ) : ZMod procA.rows) ((0 : ℕ) : ZMod procA.cols) =
      (buildFilters procA1.rows procA1.cols procA1.wavelength).evenF
        ((0 : ℕ) : ZMod procA1.rows) ((0 : ℕ) : ZMod procA1.cols) ∧
    resA.even ((0 : ℕ) : ZMod procA1.rows) ((0 : ℕ) : ZMod procA1.cols) =
      resA.even ((0 : ℕ) : ZMod procA1.rows) ((0 : ℕ) : ZMod procA1.cols) :=
  ⟨(claim_c7_determinism.1 procA procA1 rfl rfl rfl 0 0).1,
   (claim_c7_determinism.2 procA procA1 imgA procA1 procA1 rfl rfl rfl
      find_procA find_procA1 resA resA rfl rfl 0 0).1⟩

/-- Witness for C8: a rejected and an accepted construction. -/
theorem claim_c8_witness :
    mkMonogenicProcessor 0 64 50 = .error .configurationError ∧
    exceptIsOk (mkMonogenicProcessor 64 64 50) = true :=
  ⟨(claim_c8_construction_contract 0 64 50).1.mpr (Or.inl le_rfl),
   (claim_c8_construction_contract 64 64 50).2 (by norm_num) (by norm_num)
     (by norm_num)⟩

/-- Witness for C9 at the spec's 64×64, wavelength-50 configuration. -/
theorem claim_c9_witness :
    radius 64 64 0 0 = 0 ∧ (buildFilters 64 64 50).evenF 0 0 = 0 ∧
    (buildFilters 64 64 50).rx 0 0 = 0 ∧ (buildFilters 64 64 50).ry 0 0 = 0 :=
  ⟨(claim_c9_dc_forced_zero 64 64 (by norm_num) (by norm_num) 50 (by norm_num)).1,
   (claim_c9_dc_forced_zero 64 64 (by norm_num) (by norm_num) 50 (by norm_num)).2.2.1,
   (claim_c9_dc_forced_zero 64 64 (by norm_num) (by norm_num) 50 (by norm_num)).2.2.2.1,
   (claim_c9_dc_forced_zero 64 64 (by norm_num) (by norm_num) 50 (by norm_num)).2.2.2.2⟩

end Monogenic

namespace Harness

/-- A harness environment with no command-line argument and failing loads. -/
def worldBad : HarnessWorld := ⟨["monogenicImageTest.py"], fun _ => none⟩

/-- Witness for C10: missing command-line argument. -/
theorem claim_c10_witness :
    mainTrace worldBad = [.printed (earlyErrorMsg worldBad), .exited 1] :=
  (claim_c10_early_exit worldBad (Or.inl (by decide))).1

end Harness
